import Mathlib

/-!
Verification of the benchmark bash-I/O interception modules of
mini-swe-agent (`minisweagent/agents/benchmark_aspect.py` and
`minisweagent/agents/benchmark_env_aspect.py`).

The development shallowly embeds the two modules:

* `Re` models the fragment of Python's `re` module that the rule engine
  uses: patterns made of literal characters, the wildcard `.`, escaped
  punctuation and the classes `\d`, `\w`, `\s` (each matching exactly one
  character), applied by `re.sub`'s left-to-right, non-overlapping global
  substitution, including Python's behaviour on zero-width (empty-pattern)
  matches.  Patterns outside this fragment (groups, quantifiers,
  alternation, anchors, character classes) are rejected by the parser;
  every concrete pattern appearing in a theorem below is one on which the
  model agrees with Python (`"("` is a genuine `re.error` in Python,
  `"."`, `""`, `"a"`, `"b"` are genuinely valid).  Replacement strings are
  template-processed as in Python's `re.sub`: the escapes `\n`, `\t`,
  `\r`, `\\` expand to their characters, a group reference such as `\1`
  raises `re.error` (the modelled pattern fragment has no groups, so
  every group reference is invalid, as in Python), other escaped letters
  are outside the modelled fragment and rejected, and escaped punctuation
  is left alone.  `str.replace` performs no template processing.
* `BenchmarkAspect` embeds `benchmark_aspect.py` at value level: Python
  dicts carrying the relevant keys become structures with `Option` fields
  (a `none` field models an absent key) plus an opaque `rest` of further
  key/value pairs; raising becomes `Except PyErr`; the stateful
  `env.execute` becomes explicit state passing.
* `BenchmarkEnvAspect` embeds `benchmark_env_aspect.py` likewise.
* `Heap` embeds the Python object store fragment needed to reason about
  aliasing: `copy.deepcopy` versus the shallow `dict(...)` copies, and
  in-place field assignment.
-/

/-- A Python exception value.  `reError p` models `re.error` raised while
compiling the invalid pattern `p`; `raised m` models any other exception
coming out of delegated code. -/
inductive PyErr where
  | reError (pat : String)
  | raised (msg : String)
deriving DecidableEq, Repr

namespace Re

/-- One pattern element matching exactly one character: a literal
character, the wildcard `.`, or one of the one-character classes
`\d` `\D` `\w` `\W` `\s` `\S`. -/
inductive Atom where
  | lit (c : Char)
  | dot
  | cls (negated : Bool) (kind : Char)
deriving DecidableEq, Repr

/-- Whether a character belongs to the class written `\d`, `\w` or `\s`
(over the ASCII range; the full Unicode extent of Python's classes on
`str` patterns is outside the modelled fragment, and no theorem below
applies a class atom). -/
def clsMem (kind : Char) (c : Char) : Bool :=
  match kind with
  | 'd' => c.isDigit
  | 'w' => c.isAlphanum || c == '_'
  | _ => c == ' ' || c == '\t' || c == '\n' || c == '\r' ||
      c == '\x0c' || c == '\x0b'

/-- Whether an atom matches a character; as in Python, `.` matches any
character except a newline (`re.DOTALL` is never passed by the
modules). -/
def matchAtom : Atom → Char → Bool
  | .lit c, c' => c == c'
  | .dot, c => !(c == '\n')
  | .cls neg k, c => if neg then !(clsMem k c) else clsMem k c

/-- Metacharacters that are not part of the modelled pattern fragment
(or, like a lone `(` or `[`, are genuinely invalid in Python). -/
def isMeta (c : Char) : Bool :=
  c == '(' || c == ')' || c == '[' || c == ']' || c == '{' || c == '}' ||
  c == '*' || c == '+' || c == '?' || c == '|' || c == '^' || c == '$'

/-- Parse a pattern string (as a character list) into a sequence of
one-character atoms.  `none` models `re.error` (for a lone `(`, a trailing
backslash, an unknown alphanumeric escape) or a pattern outside the
modelled fragment. -/
def parsePattern : List Char → Option (List Atom)
  | [] => some []
  | '\\' :: [] => none
  | '\\' :: c :: rest =>
    if c == 'd' || c == 'w' || c == 's' then
      (parsePattern rest).map (Atom.cls false c :: ·)
    else if c == 'D' || c == 'W' || c == 'S' then
      (parsePattern rest).map (Atom.cls true c.toLower :: ·)
    else if c.isAlphanum then none
    else (parsePattern rest).map (Atom.lit c :: ·)
  | '.' :: rest => (parsePattern rest).map (Atom.dot :: ·)
  | c :: rest =>
    if isMeta c then none else (parsePattern rest).map (Atom.lit c :: ·)

/-- Whether the atom sequence matches a prefix of the text (each atom
consuming exactly one character). -/
def atomsMatch : List Atom → List Char → Bool
  | [], _ => true
  | _ :: _, [] => false
  | a :: as, c :: cs => matchAtom a c && atomsMatch as cs

/-- Left-to-right, non-overlapping global substitution of a fixed-length
pattern, with Python's `re.sub` behaviour on zero-width matches (an empty
pattern matches before every character and at the end).  `fuel` only
bounds the recursion; `text.length + 1` is always enough, as each step
consumes at least one character or ends the scan. -/
def subAux : Nat → List Atom → List Char → List Char → List Char
  | 0, _, _, cs => cs
  | fuel + 1, ats, repl, cs =>
    if atomsMatch ats cs then
      match ats, cs with
      | [], [] => repl
      | [], c :: cs' => repl ++ c :: subAux fuel [] repl cs'
      | _ :: _, _ => repl ++ subAux fuel ats repl (cs.drop ats.length)
    else
      match cs with
      | [] => []
      | c :: cs' => c :: subAux fuel ats repl cs'

/-- `re.sub` on an already parsed pattern. -/
def subAtoms (ats : List Atom) (repl text : List Char) : List Char :=
  subAux (text.length + 1) ats repl text

/-- Process a `re.sub` replacement template as Python does: `\n`, `\t`,
`\r` and `\\` expand to the corresponding character; a backslash followed
by a digit is a group reference, invalid here since the modelled pattern
fragment has no groups (Python: `re.error: invalid group reference`);
other escaped letters (`\a`, `\g<...>`, octal escapes, unknown letter
escapes) are outside the modelled fragment and rejected; an escaped
non-letter is left alone; a trailing lone backslash is a bad escape.
`none` models the raised `re.error`. -/
def parseTemplate : List Char → Option (List Char)
  | [] => some []
  | c :: rest =>
    if c == '\\' then
      match rest with
      | [] => none
      | d :: rest' =>
        if d == 'n' then (parseTemplate rest').map ('\n' :: ·)
        else if d == 't' then (parseTemplate rest').map ('\t' :: ·)
        else if d == 'r' then (parseTemplate rest').map ('\r' :: ·)
        else if d == '\\' then (parseTemplate rest').map ('\\' :: ·)
        else if d.isAlphanum then none
        else (parseTemplate rest').map fun l => '\\' :: d :: l
    else (parseTemplate rest).map (c :: ·)

/-- `re.sub(pattern, repl, text)`: parse the pattern, expand the
replacement template, then substitute globally; an invalid pattern, and
then an invalid replacement template, raise `re.error` (in that order,
as in Python, and even when the pattern never matches). -/
def sub (pat repl text : String) : Except PyErr String :=
  match parsePattern pat.toList with
  | none => .error (.reError pat)
  | some ats =>
    match parseTemplate repl.toList with
    | none => .error (.reError repl)
    | some r => .ok ⟨subAtoms ats r text.toList⟩

/-- Python `str.replace(old, new)`: literal all-occurrences substring
replacement, left to right and non-overlapping.  An empty `old` behaves
exactly like the empty regex pattern (Python inserts `new` at every
position), so the same substitution engine applies with every character
of `old` a literal atom. -/
def pyReplace (old new text : String) : String :=
  ⟨subAtoms (old.toList.map Atom.lit) new.toList text.toList⟩

end Re

/-- A replacement rule, modelling the Python dict
`{"pattern": ..., "replace": ..., "regex": ...}`; a `none` field models an
absent key.  Absent `pattern`/`replace` default to `""`, absent `regex`
defaults to `true`, exactly as in `rule.get("pattern", "")`,
`rule.get("replace", "")` and `rule.get("regex", True)`. -/
structure Rule where
  pattern : Option String
  replace : Option String
  regex : Option Bool
deriving DecidableEq, Repr

namespace BenchmarkAspect

/-- One iteration of the loop in `_apply_rules`: apply a single rule to
the text, as a regex substitution or a literal replacement. -/
def applyRule (text : String) (rule : Rule) : Except PyErr String :=
  let pattern := rule.pattern.getD ""
  let replace := rule.replace.getD ""
  if rule.regex.getD true then
    Re.sub pattern replace text
  else
    .ok (Re.pyReplace pattern replace text)

/-- `_apply_rules(text, rules)` from `benchmark_aspect.py`: fold the rules
over the text in list order, each rule seeing the previous rule's
output. -/
def _apply_rules (text : String) : List Rule → Except PyErr String
  | [] => .ok text
  | rule :: rules => do _apply_rules (← applyRule text rule) rules

end BenchmarkAspect

namespace BenchmarkEnvAspect

/-- `_apply_rules(text, rules)` from `benchmark_env_aspect.py`; the
function body is identical, line for line, to the one in
`benchmark_aspect.py`. -/
def _apply_rules (text : String) : List Rule → Except PyErr String
  | [] => .ok text
  | rule :: rules => do _apply_rules (← BenchmarkAspect.applyRule text rule) rules

end BenchmarkEnvAspect

/-- A Python dict as the interceptors see it: the `command` and `output`
keys they read and write (a `none` models an absent key) plus an opaque
tail of other string-valued entries that the interceptors pass through
untouched. -/
structure Dict where
  command : Option String
  output : Option String
  rest : List (String × String)
deriving DecidableEq, Repr

/-- The value of a message's `extra` key: the `actions` list the
action-layer interceptor reads and writes, plus opaque other entries. -/
structure Extra where
  actions : Option (List Dict)
  rest : List (String × String)
deriving DecidableEq, Repr

/-- The message handed to `execute_actions`: the `extra` key the
interceptor touches, plus opaque other entries. -/
structure Message where
  extra : Option Extra
  rest : List (String × String)
deriving DecidableEq, Repr

/-- `msg.get("extra", {}).get("actions", [])`. -/
def Message.actionsOf (m : Message) : List Dict :=
  match m.extra with
  | some e => e.actions.getD []
  | none => []

/-- `msg.setdefault("extra", {})["actions"] = rewritten_actions`: write
the rewritten action list back, creating an empty `extra` dict first when
the key is absent. -/
def Message.writeback (m : Message) (as : List Dict) : Message :=
  match m.extra with
  | some e => { m with extra := some { e with actions := some as } }
  | none => { m with extra := some ⟨some as, []⟩ }

namespace BenchmarkAspect

/-- `_build_action_transform(rules)`: `None` for an absent or empty rule
list, otherwise the closure that shallow-copies the action and rewrites
its `command` field through `_apply_rules` (the `_meta` argument is
accepted and ignored, as in the source).  `M` is the type of the metadata
dict. -/
def _build_action_transform (M : Type) :
    Option (List Rule) → Option (Dict → M → Except PyErr Dict)
  | none => none
  | some [] => none
  | some rules => some fun action _meta => do
      let transformed := action
      let cmd ← _apply_rules (transformed.command.getD "") rules
      pure { transformed with command := some cmd }

/-- `_build_output_transform(rules)`: as `_build_action_transform`, but
rewriting the `output` field. -/
def _build_output_transform (M : Type) :
    Option (List Rule) → Option (Dict → M → Except PyErr Dict)
  | none => none
  | some [] => none
  | some rules => some fun output _meta => do
      let transformed := output
      let out ← _apply_rules (transformed.output.getD "") rules
      pure { transformed with output := some out }

/-- The metadata dict `{"agent": agent, "message": msg}` built for each
transform invocation, with the agent handle left opaque at type `A`. -/
structure Meta (A : Type) where
  agent : A
  message : Message
deriving Repr

/-- The data the installed aspect closes over: the rule-built transforms
and the caller-supplied callbacks (callbacks are modelled as total
functions; no claim concerns a callback that raises). -/
structure AspectCfg (A : Type) where
  rule_action_transform : Option (Dict → Meta A → Except PyErr Dict)
  transform_action : Option (Dict → Meta A → Dict)
  rule_output_transform : Option (Dict → Meta A → Except PyErr Dict)
  transform_output : Option (Dict → Meta A → Dict)

/-- `install_benchmark_bash_io_aspect(...)`: builds the two rule
transforms and captures them together with the callbacks.  As in the
source, the rule lists are only tested for emptiness here: no pattern is
compiled or otherwise validated at installation time (the `aspectlib`
guard on import, the default `agent_class` and the weaving itself
concern the out-of-scope attachment mechanism and carry no rule
logic). -/
def install_benchmark_bash_io_aspect (A : Type)
    (action_replacements : Option (List Rule))
    (output_replacements : Option (List Rule))
    (transform_action : Option (Dict → Meta A → Dict))
    (transform_output : Option (Dict → Meta A → Dict)) : AspectCfg A :=
  { rule_action_transform := _build_action_transform (Meta A) action_replacements
    transform_action := transform_action
    rule_output_transform := _build_output_transform (Meta A) output_replacements
    transform_output := transform_output }

/-- The per-action body of the first loop in `_around_execute_actions`:
`updated = dict(action)`, then the rule transform if configured, then the
custom callback if configured, on the metadata `{"agent": agent,
"message": msg}` (at this point `msg` still holds the original action
list). -/
def rewriteOneAction (cfg : AspectCfg A) (agent : A) (msg : Message)
    (action : Dict) : Except PyErr Dict := do
  let updated := action
  let meta : Meta A := ⟨agent, msg⟩
  let updated ← match cfg.rule_action_transform with
    | some f => f updated meta
    | none => pure updated
  let updated := match cfg.transform_action with
    | some f => f updated meta
    | none => updated
  pure updated

/-- The per-output body of the second loop in `_around_execute_actions`
(`msg` now holds the rewritten action list). -/
def rewriteOneOutput (cfg : AspectCfg A) (agent : A) (msg : Message)
    (output : Dict) : Except PyErr Dict := do
  let updated := output
  let meta : Meta A := ⟨agent, msg⟩
  let updated ← match cfg.rule_output_transform with
    | some f => f updated meta
    | none => pure updated
  let updated := match cfg.transform_output with
    | some f => f updated meta
    | none => updated
  pure updated

/-- A `for` loop accumulating one result per element, left to right, with
any raise propagating immediately: the shape of both rewriting loops in
`_around_execute_actions`. -/
def mapExcept (f : α → Except PyErr β) : List α → Except PyErr (List β)
  | [] => .ok []
  | a :: as => do
    let b ← f a
    let bs ← mapExcept f as
    pure (b :: bs)

/-- The list comprehension
`outputs = [agent.env.execute(action) for action in rewritten_actions]`:
strictly sequential, left to right, threading the environment state. -/
def runSeq (execute : σ → Dict → Except PyErr (Dict × σ)) :
    σ → List Dict → Except PyErr (List Dict × σ)
  | s, [] => .ok ([], s)
  | s, a :: as => do
    let (o, s') ← execute s a
    let (os, s'') ← runSeq execute s' as
    pure (o :: os, s'')

/-- Wrap an environment-execution capability so that every invocation is
appended to a log, in invocation order; used to observe how often and in
which order the interceptor calls the environment. -/
def logWrap (execute : σ → Dict → Except PyErr (Dict × σ)) :
    σ × List Dict → Dict → Except PyErr (Dict × (σ × List Dict)) :=
  fun p a => (execute p.1 a).map fun q => (q.1, (q.2, p.2 ++ [a]))

/-- `_around_execute_actions` at value level.  The agent's capabilities
appear as parameters: `envExecute` is `agent.env.execute` (stateful, state
type `σ`), `formatObs` is
`agent.model.format_observation_messages(msg, outputs, template_vars)`
(observation type `O`, template-variable type `τ`), `addMessages` is
`agent.add_messages(*observation_messages)` (result type `R`), and
`agent : A` is the handle placed in each transform's metadata.  The
`copy.deepcopy(message)` on entry is the identity at value level; its
aliasing content is verified separately on the `Heap` model. -/
def _around_execute_actions
    (envExecute : σ → Dict → Except PyErr (Dict × σ))
    (templateVars : τ)
    (formatObs : Message → List Dict → τ → Except PyErr (List O))
    (addMessages : List O → Except PyErr R)
    (cfg : AspectCfg A) (agent : A)
    (s : σ) (message : Message) : Except PyErr (R × σ) := do
  let msg := message
  let actions := msg.actionsOf
  let rewritten_actions ← mapExcept (rewriteOneAction cfg agent msg) actions
  let msg := msg.writeback rewritten_actions
  let (outputs, s') ← runSeq envExecute s rewritten_actions
  let rewritten_outputs ← mapExcept (rewriteOneOutput cfg agent msg) outputs
  let observation_messages ← formatObs msg rewritten_outputs templateVars
  let result ← addMessages observation_messages
  pure (result, s')

end BenchmarkAspect

/-- An arbitrary Python value crossing the environment-layer boundary: a
dict (the expected shape), a bare string, or some other object carried
opaquely together with its `str(...)` rendering. -/
inductive PyVal where
  | vdict : Dict → PyVal
  | vstr : String → PyVal
  | vother : String → PyVal
deriving DecidableEq, Repr

/-- `str(v)` for the non-dict values the env-layer interceptor stringifies. -/
def PyVal.pyStr : PyVal → String
  | .vdict _ => ""
  | .vstr t => t
  | .vother t => t

namespace BenchmarkEnvAspect

/-- The entry normalization
`dict(action) if isinstance(action, dict) else {"command": str(action)}`
of `_around_execute` (the `dict(...)` copy is the identity at value
level; its aliasing content is verified on the `Heap` model). -/
def entryBase : PyVal → Dict
  | .vdict d => d
  | a => { command := some a.pyStr, output := none, rest := [] }

/-- The test `isinstance(result, dict) and "output" in result` guarding
the output rewrite of `_around_execute`. -/
def hasOutputField : PyVal → Bool
  | .vdict d => d.output.isSome
  | _ => false

/-- `_around_execute` from `benchmark_env_aspect.py` at value level, with
`cmd_rules`/`out_rules` the captured `command_replacements or []` and
`output_replacements or []`.  `origExecute` is the original
`env.execute` implementation reached through `aspectlib.Proceed`
(stateful, state type `σ`).  Entry: `updated_action = dict(action) if
isinstance(action, dict) else {"command": str(action)}`, then the
command rules run over `updated_action.get("command", "")`.  Exit: the
result is copied and its `output` field rewritten only when it is a dict
containing `"output"`; any other result is returned unchanged. -/
def _around_execute
    (origExecute : σ → Dict → Except PyErr (PyVal × σ))
    (cmd_rules out_rules : List Rule)
    (s : σ) (action : PyVal) : Except PyErr (PyVal × σ) := do
  let base : Dict := entryBase action
  let cmd ← _apply_rules (base.command.getD "") cmd_rules
  let updated_action := { base with command := some cmd }
  let (result, s') ← origExecute s updated_action
  match result with
  | .vdict rd =>
    if rd.output.isSome then do
      let out ← _apply_rules (rd.output.getD "") out_rules
      pure (.vdict { rd with output := some out }, s')
    else
      pure (result, s')
  | _ => pure (result, s')

/-- `install_benchmark_env_bash_io_aspect(...)`: the captured rule lists
`command_replacements or []` and `output_replacements or []`.  As at the
agent layer, no pattern is validated at installation time; the import
guard, default `env_class` and weaving carry no rule logic. -/
def install_benchmark_env_bash_io_aspect
    (command_replacements output_replacements : Option (List Rule)) :
    List Rule × List Rule :=
  (command_replacements.getD [], output_replacements.getD [])

end BenchmarkEnvAspect

namespace Heap

/-!
A heap model of the Python object graph, used to verify the aliasing
behaviour of the interceptors' copies (`copy.deepcopy(message)` at the
agent layer, the shallow `dict(action)` / `dict(result)` at the
environment layer) and of their in-place field assignments.  Objects live
in a `Store` (a list indexed by `Ref`; allocation appends), values are
strings or references. -/

/-- A reference into the store. -/
abbrev Ref := Nat

/-- A Python value: an immutable string or a reference to a heap object. -/
inductive HVal where
  | vstr (s : String)
  | vref (r : Ref)
deriving DecidableEq, Repr

/-- A heap object: a dict (ordered key/value entries) or a list. -/
inductive HObj where
  | hdict (fields : List (String × HVal))
  | hlist (items : List HVal)
deriving DecidableEq, Repr

/-- The object store; `Ref`s index into it and allocation appends. -/
abbrev Store := List HObj

/-- Python dict assignment on the entry list: replace the value of an
existing key in place, or append a new entry. -/
def setEntry (k : String) (v : HVal) : List (String × HVal) → List (String × HVal)
  | [] => [(k, v)]
  | (k', v') :: rest =>
    if k' == k then (k, v) :: rest else (k', v') :: setEntry k v rest

/-- `obj[key] = value` on the dict object at `r`, in place. -/
def setField (s : Store) (r : Ref) (k : String) (v : HVal) : Store :=
  match s[r]? with
  | some (.hdict fields) => s.set r (.hdict (setEntry k v fields))
  | _ => s

/-- Read `obj[key]` from the dict object at `r`. -/
def getField (s : Store) (r : Ref) (k : String) : Option HVal :=
  match s[r]? with
  | some (.hdict fields) => fields.lookup k
  | _ => none

/-- `dict(x)`: a shallow copy — allocate a fresh dict object carrying the
same entries, values (hence references to nested objects) shared. -/
def dictCopy (s : Store) (r : Ref) : Option (Store × Ref) :=
  match s[r]? with
  | some (.hdict fields) => some (s ++ [.hdict fields], s.length)
  | _ => none

mutual

/-- `copy.deepcopy` on a value: strings are immutable and shared,
references are replaced by references to recursively copied objects.
`fuel` bounds the recursion depth (Python's memo handling of cyclic
structures is not needed for the acyclic messages modelled here). -/
def deepcopyVal : Nat → Store → HVal → Option (HVal × Store)
  | 0, _, _ => none
  | _ + 1, s, .vstr t => some (.vstr t, s)
  | fuel + 1, s, .vref r =>
    match s[r]? with
    | some (.hdict fields) =>
      match deepcopyPairs fuel s fields with
      | some (fields', s') => some (.vref s'.length, s' ++ [.hdict fields'])
      | none => none
    | some (.hlist items) =>
      match deepcopyVals fuel s items with
      | some (items', s') => some (.vref s'.length, s' ++ [.hlist items'])
      | none => none
    | none => none

/-- `copy.deepcopy` over the items of a list object, left to right. -/
def deepcopyVals : Nat → Store → List HVal → Option (List HVal × Store)
  | 0, _, _ => none
  | _ + 1, s, [] => some ([], s)
  | fuel + 1, s, v :: vs =>
    match deepcopyVal fuel s v with
    | some (v', s') =>
      match deepcopyVals fuel s' vs with
      | some (vs', s'') => some (v' :: vs', s'')
      | none => none
    | none => none

/-- `copy.deepcopy` over the entries of a dict object, left to right. -/
def deepcopyPairs : Nat → Store → List (String × HVal) → Option (List (String × HVal) × Store)
  | 0, _, _ => none
  | _ + 1, s, [] => some ([], s)
  | fuel + 1, s, (k, v) :: ps =>
    match deepcopyVal fuel s v with
    | some (v', s') =>
      match deepcopyPairs fuel s' ps with
      | some (ps', s'') => some ((k, v') :: ps', s'')
      | none => none
    | none => none

end

/-- Whether a value's reference (if any) points at or above index `n`. -/
def refGE (n : Nat) : HVal → Bool
  | .vstr _ => true
  | .vref r => n ≤ r

/-- Whether every reference stored in an object points at or above `n`. -/
def objRefsGE (n : Nat) : HObj → Bool
  | .hdict fields => fields.all fun p => refGE n p.2
  | .hlist items => items.all (refGE n)

/-- The heap-level entry step of `_around_execute`:
`updated_action = dict(action) if isinstance(action, dict) else
{"command": str(action)}` followed by
`updated_action["command"] = cmd`, where `cmd` is the rewritten command
text (its computation from the rules is modelled at value level by
`_apply_rules`).  Returns the store and the reference of the action
passed on to the original `execute`. -/
def envEntryHeap (s : Store) (action : HVal) (cmd : String) : Store × Ref :=
  match action with
  | .vref r =>
    match s[r]? with
    | some (.hdict fields) =>
      (setField (s ++ [.hdict fields]) s.length "command" (.vstr cmd), s.length)
    | _ => (s ++ [.hdict [("command", .vstr cmd)]], s.length)
  | _ => (s ++ [.hdict [("command", .vstr cmd)]], s.length)

/-- The heap-level exit step of `_around_execute`: when the result is a
dict containing `"output"`, `result = dict(result)` followed by
`result["output"] = out` on the fresh copy; otherwise the result value is
returned untouched. -/
def envResultHeap (s : Store) (result : HVal) (out : String) : Store × HVal :=
  match result with
  | .vref r =>
    match s[r]? with
    | some (.hdict fields) =>
      if (fields.lookup "output").isSome then
        (setField (s ++ [.hdict fields]) s.length "output" (.vstr out), .vref s.length)
      else (s, result)
    | _ => (s, result)
  | _ => (s, result)

/-- Store `s'` extends `s`: every object of `s` is still present,
unchanged, at its index. -/
def StorePres (s s' : Store) : Prop :=
  s.length ≤ s'.length ∧ ∀ i, i < s.length → s'[i]? = s[i]?

/-- Every object of `s` at an index at or above `n` references only
indices at or above `n` (the region above `n` is self-contained). -/
def ExtFresh (n : Nat) (s : Store) : Prop :=
  ∀ j o, n ≤ j → s[j]? = some o → objRefsGE n o = true

/-- A concrete caller-side heap for the environment layer: object 0 is a
nested metadata dict `{"x": "v"}` and object 1 is the caller's action
`{"command": "pwd", "meta": <ref 0>}`. -/
def callerStore : Store :=
  [.hdict [("x", .vstr "v")],
   .hdict [("command", .vstr "pwd"), ("meta", .vref 0)]]

end Heap

/-- `R` inserted before every character of `T` and appended after the
last character: the effect of substituting an empty (or absent) regex
pattern by `R` globally. -/
def insertEverywhere (R T : String) : String :=
  ⟨R.toList ++ T.toList.flatMap fun c => c :: R.toList⟩

/-- A rule whose pattern `"("` is an invalid regular expression (Python:
`re.error: missing ), unterminated subpattern`) in the default regex
mode. -/
def badPatternRule : Rule :=
  { pattern := some "(", replace := some "X", regex := none }

/-- A concrete three-action message used to exercise the action-layer
interceptor on explicit inputs. -/
def msg3 : Message :=
  ⟨some ⟨some [⟨some "x", none, []⟩, ⟨some "y", none, []⟩, ⟨some "z", none, []⟩],
    [("role", "assistant")]⟩, []⟩

/-- A concrete environment-execution capability: echoes the command into
the output and counts invocations in its `Nat` state. -/
def echoEnv : Nat → Dict → Except PyErr (Dict × Nat) :=
  fun s a => .ok ({ a with output := some (a.command.getD "") }, s + 1)

/-- An aspect configuration with no rules and no callbacks. -/
def cfgNone : BenchmarkAspect.AspectCfg Unit := ⟨none, none, none, none⟩

/-- A concrete caller-supplied action callback: appends `"g"` to the
command. -/
def cbAct : Dict → BenchmarkAspect.Meta Unit → Dict :=
  fun d _ => { d with command := some ((d.command.getD "") ++ "g") }

/-- A concrete caller-supplied output callback: appends `"h"` to the
output. -/
def cbOut : Dict → BenchmarkAspect.Meta Unit → Dict :=
  fun d _ => { d with output := some ((d.output.getD "") ++ "h") }

/-! ## Support lemmas -/

namespace Heap

theorem getElem?_setField_ne (s : Store) (r : Ref) (k : String) (v : HVal)
    (i : Nat) (h : i ≠ r) : (setField s r k v)[i]? = s[i]? := by
  cases hr : s[r]? with
  | none => simp [setField, hr]
  | some o =>
    cases o with
    | hdict fields =>
      simp only [setField, hr]
      exact List.getElem?_set_ne (Ne.symm h)
    | hlist items => simp [setField, hr]

theorem storePres_self (s : Store) : StorePres s s :=
  ⟨Nat.le_refl _, fun _ _ => rfl⟩

theorem storePres_trans {s₁ s₂ s₃ : Store}
    (h1 : StorePres s₁ s₂) (h2 : StorePres s₂ s₃) : StorePres s₁ s₃ :=
  ⟨Nat.le_trans h1.1 h2.1, fun i hi => by
    rw [h2.2 i (Nat.lt_of_lt_of_le hi h1.1), h1.2 i hi]⟩

theorem storePres_append (s : Store) (os : List HObj) : StorePres s (s ++ os) := by
  refine ⟨by simp, fun i hi => List.getElem?_append_left hi⟩

theorem extFresh_self (s : Store) : ExtFresh s.length s := by
  intro j o hj ho
  rw [List.getElem?_eq_none hj] at ho
  cases ho

theorem refGE_mono {n m : Nat} {v : HVal} (h : n ≤ m)
    (hv : refGE m v = true) : refGE n v = true := by
  cases v with
  | vstr t => rfl
  | vref r => simp only [refGE, decide_eq_true_eq] at hv ⊢; omega

theorem objRefsGE_mono {n m : Nat} {o : HObj} (h : n ≤ m)
    (ho : objRefsGE m o = true) : objRefsGE n o = true := by
  cases o with
  | hdict fields =>
    simp only [objRefsGE, List.all_eq_true] at ho ⊢
    exact fun p hp => refGE_mono h (ho p hp)
  | hlist items =>
    simp only [objRefsGE, List.all_eq_true] at ho ⊢
    exact fun v hv => refGE_mono h (ho v hv)

theorem extFresh_step {s s₁ s₂ : Store}
    (h1 : StorePres s s₁) (e1 : ExtFresh s.length s₁)
    (h2 : StorePres s₁ s₂) (e2 : ExtFresh s₁.length s₂) :
    ExtFresh s.length s₂ := by
  intro j o hj ho
  by_cases hj1 : j < s₁.length
  · exact e1 j o hj (by rw [← h2.2 j hj1]; exact ho)
  · exact objRefsGE_mono h1.1 (e2 j o (by omega) ho)

theorem extFresh_concat {s s₁ : Store} {x : HObj}
    (e1 : ExtFresh s.length s₁)
    (hx : objRefsGE s.length x = true) :
    ExtFresh s.length (s₁ ++ [x]) := by
  intro j o hj ho
  by_cases hj1 : j < s₁.length
  · rw [List.getElem?_append_left hj1] at ho
    exact e1 j o hj ho
  · by_cases hj2 : j = s₁.length
    · subst hj2
      rw [List.getElem?_concat_length] at ho
      cases ho
      exact hx
    · rw [List.getElem?_eq_none (by simp; omega)] at ho
      cases ho

/-- The behaviour of `copy.deepcopy` (for every sufficient fuel): the
original store is preserved object for object, the copied value's
reference is fresh, and the freshly allocated region only references
itself — the copy shares no mutable object with the original. -/
theorem deepcopy_spec (fuel : Nat) :
    (∀ s v v' s', deepcopyVal fuel s v = some (v', s') →
      StorePres s s' ∧ refGE s.length v' = true ∧ ExtFresh s.length s') ∧
    (∀ s vs vs' s', deepcopyVals fuel s vs = some (vs', s') →
      StorePres s s' ∧ (∀ w ∈ vs', refGE s.length w = true) ∧ ExtFresh s.length s') ∧
    (∀ s ps ps' s', deepcopyPairs fuel s ps = some (ps', s') →
      StorePres s s' ∧ (∀ p ∈ ps', refGE s.length p.2 = true) ∧ ExtFresh s.length s') := by
  induction fuel with
  | zero =>
    refine ⟨?_, ?_, ?_⟩ <;> intro s x y s' h <;>
      simp [deepcopyVal, deepcopyVals, deepcopyPairs] at h
  | succ fuel ih =>
    obtain ⟨ihv, ihl, ihp⟩ := ih
    refine ⟨?_, ?_, ?_⟩
    · intro s v v' s' h
      cases v with
      | vstr t =>
        simp only [deepcopyVal, Option.some.injEq, Prod.mk.injEq] at h
        obtain ⟨hv, hs⟩ := h
        subst hv; subst hs
        exact ⟨storePres_self s, rfl, extFresh_self s⟩
      | vref r =>
        cases hr : s[r]? with
        | none => simp [deepcopyVal, hr] at h
        | some o =>
          cases o with
          | hdict fields =>
            cases hp : deepcopyPairs fuel s fields with
            | none => simp [deepcopyVal, hr, hp] at h
            | some q =>
              obtain ⟨fields', s₁⟩ := q
              simp only [deepcopyVal, hr, hp, Option.some.injEq, Prod.mk.injEq] at h
              obtain ⟨hv', hs'⟩ := h
              obtain ⟨hsp, hrefs, hext⟩ := ihp s fields fields' s₁ hp
              subst hv'; subst hs'
              refine ⟨storePres_trans hsp (storePres_append s₁ _), ?_, ?_⟩
              · simp only [refGE, decide_eq_true_eq]
                exact hsp.1
              · refine extFresh_concat hext ?_
                simp only [objRefsGE, List.all_eq_true]
                exact fun p hp' => hrefs p hp'
          | hlist items =>
            cases hp : deepcopyVals fuel s items with
            | none => simp [deepcopyVal, hr, hp] at h
            | some q =>
              obtain ⟨items', s₁⟩ := q
              simp only [deepcopyVal, hr, hp, Option.some.injEq, Prod.mk.injEq] at h
              obtain ⟨hv', hs'⟩ := h
              obtain ⟨hsp, hrefs, hext⟩ := ihl s items items' s₁ hp
              subst hv'; subst hs'
              refine ⟨storePres_trans hsp (storePres_append s₁ _), ?_, ?_⟩
              · simp only [refGE, decide_eq_true_eq]
                exact hsp.1
              · refine extFresh_concat hext ?_
                simp only [objRefsGE, List.all_eq_true]
                exact fun w hw => hrefs w hw
    · intro s vs vs' s' h
      cases vs with
      | nil =>
        simp only [deepcopyVals, Option.some.injEq, Prod.mk.injEq] at h
        obtain ⟨h1, h2⟩ := h
        subst h1; subst h2
        exact ⟨storePres_self s, by simp, extFresh_self s⟩
      | cons v vs =>
        cases hv : deepcopyVal fuel s v with
        | none => simp [deepcopyVals, hv] at h
        | some q =>
          obtain ⟨v₁, s₁⟩ := q
          cases hvs : deepcopyVals fuel s₁ vs with
          | none => simp [deepcopyVals, hv, hvs] at h
          | some q2 =>
            obtain ⟨vs₁, s₂⟩ := q2
            simp only [deepcopyVals, hv, hvs, Option.some.injEq, Prod.mk.injEq] at h
            obtain ⟨h1, h2⟩ := h
            obtain ⟨sp1, r1, e1⟩ := ihv s v v₁ s₁ hv
            obtain ⟨sp2, r2, e2⟩ := ihl s₁ vs vs₁ s₂ hvs
            subst h1; subst h2
            refine ⟨storePres_trans sp1 sp2, ?_, extFresh_step sp1 e1 sp2 e2⟩
            intro w hw
            rcases List.mem_cons.mp hw with hw | hw
            · subst hw; exact r1
            · exact refGE_mono sp1.1 (r2 w hw)
    · intro s ps ps' s' h
      cases ps with
      | nil =>
        simp only [deepcopyPairs, Option.some.injEq, Prod.mk.injEq] at h
        obtain ⟨h1, h2⟩ := h
        subst h1; subst h2
        exact ⟨storePres_self s, by simp, extFresh_self s⟩
      | cons p ps =>
        obtain ⟨k, v⟩ := p
        cases hv : deepcopyVal fuel s v with
        | none => simp [deepcopyPairs, hv] at h
        | some q =>
          obtain ⟨v₁, s₁⟩ := q
          cases hps : deepcopyPairs fuel s₁ ps with
          | none => simp [deepcopyPairs, hv, hps] at h
          | some q2 =>
            obtain ⟨ps₁, s₂⟩ := q2
            simp only [deepcopyPairs, hv, hps, Option.some.injEq, Prod.mk.injEq] at h
            obtain ⟨h1, h2⟩ := h
            obtain ⟨sp1, r1, e1⟩ := ihv s v v₁ s₁ hv
            obtain ⟨sp2, r2, e2⟩ := ihp s₁ ps ps₁ s₂ hps
            subst h1; subst h2
            refine ⟨storePres_trans sp1 sp2, ?_, extFresh_step sp1 e1 sp2 e2⟩
            intro w hw
            rcases List.mem_cons.mp hw with hw | hw
            · subst hw; exact r1
            · exact refGE_mono sp1.1 (r2 w hw)

end Heap

namespace Re

theorem subAux_nil_atoms (repl : List Char) :
    ∀ (cs : List Char) (fuel : Nat), cs.length < fuel →
      subAux fuel [] repl cs = repl ++ cs.flatMap fun c => c :: repl := by
  intro cs
  induction cs with
  | nil =>
    intro fuel hf
    match fuel, hf with
    | fuel + 1, _ => simp [subAux, atomsMatch]
  | cons c cs ih =>
    intro fuel hf
    match fuel, hf with
    | fuel + 1, hf =>
      have : cs.length < fuel := by simpa using hf
      simp [subAux, atomsMatch, ih fuel this]

theorem parseTemplate_no_backslash :
    ∀ l : List Char, (∀ c ∈ l, c ≠ '\\') → parseTemplate l = some l := by
  intro l
  induction l with
  | nil => intro _; rfl
  | cons c cs ih =>
    intro h
    have hb : (c == '\\') = false :=
      beq_eq_false_iff_ne.mpr (h c (List.mem_cons_self c cs))
    rw [parseTemplate.eq_def]
    simp only [hb, Bool.false_eq_true, if_false]
    rw [ih fun d hd => h d (List.mem_cons_of_mem c hd)]
    rfl

end Re

namespace BenchmarkAspect

theorem mapExcept_ok_length {α β : Type} (f : α → Except PyErr β) :
    ∀ (as : List α) (bs : List β), mapExcept f as = .ok bs → bs.length = as.length := by
  intro as
  induction as with
  | nil => intro bs h; simp only [mapExcept, Except.ok.injEq] at h; subst h; rfl
  | cons a as ih =>
    intro bs h
    cases ha : f a with
    | error e => simp [mapExcept, ha, bind, Except.bind, Functor.map, Except.map] at h
    | ok b =>
      cases has : mapExcept f as with
      | error e => simp [mapExcept, ha, has, bind, Except.bind, Functor.map, Except.map] at h
      | ok bs' =>
        simp only [mapExcept, ha, has, bind, Except.bind, Functor.map, Except.map,
          pure, Except.pure, Except.ok.injEq] at h
        subst h
        simp [ih bs' has]

theorem mapExcept_congr {α β : Type} (f g : α → Except PyErr β)
    (hfg : ∀ a, f a = g a) : ∀ as : List α, mapExcept f as = mapExcept g as := by
  intro as
  induction as with
  | nil => rfl
  | cons a as ih => simp only [mapExcept, hfg a, ih]

theorem runSeq_ok_length {σ : Type} (f : σ → Dict → Except PyErr (Dict × σ)) :
    ∀ (as : List Dict) (s : σ) (os : List Dict) (s' : σ),
      runSeq f s as = .ok (os, s') → os.length = as.length := by
  intro as
  induction as with
  | nil =>
    intro s os s' h
    simp only [runSeq, Except.ok.injEq, Prod.mk.injEq] at h
    simp [← h.1]
  | cons a as ih =>
    intro s os s' h
    cases ha : f s a with
    | error e => simp [runSeq, ha, bind, Except.bind, Functor.map, Except.map] at h
    | ok q =>
      obtain ⟨o, s₁⟩ := q
      cases has : runSeq f s₁ as with
      | error e => simp [runSeq, ha, has, bind, Except.bind, Functor.map, Except.map] at h
      | ok q2 =>
        obtain ⟨os₁, s₂⟩ := q2
        simp only [runSeq, ha, has, bind, Except.bind, Functor.map, Except.map,
          pure, Except.pure, Except.ok.injEq, Prod.mk.injEq] at h
        obtain ⟨h1, h2⟩ := h
        subst h2
        simp [← h1, ih s₁ os₁ s₂ has]

theorem runSeq_logWrap {σ : Type} (f : σ → Dict → Except PyErr (Dict × σ)) :
    ∀ (as : List Dict) (s : σ) (log : List Dict),
      runSeq (logWrap f) (s, log) as =
        (runSeq f s as).map fun p => (p.1, (p.2, log ++ as)) := by
  intro as
  induction as with
  | nil => intro s log; simp [runSeq, Except.map]
  | cons a as ih =>
    intro s log
    cases ha : f s a with
    | error e =>
      simp [runSeq, logWrap, ha, bind, Except.bind, Functor.map, Except.map]
    | ok q =>
      obtain ⟨o, s₁⟩ := q
      simp only [runSeq, logWrap, ha, bind, Except.bind, Functor.map, Except.map]
      rw [ih]
      cases has : runSeq f s₁ as with
      | error e => simp [has, Except.map]
      | ok q2 =>
        simp [has, Except.map, pure, Except.pure]

end BenchmarkAspect

namespace BenchmarkAspect

theorem around_ok_decomp {σ τ O R A : Type}
    (envExecute : σ → Dict → Except PyErr (Dict × σ)) (tv : τ)
    (formatObs : Message → List Dict → τ → Except PyErr (List O))
    (addMessages : List O → Except PyErr R)
    (cfg : AspectCfg A) (agent : A) (s : σ) (message : Message) (r : R) (s' : σ)
    (h : _around_execute_actions envExecute tv formatObs addMessages cfg agent
      s message = .ok (r, s')) :
    ∃ rw outs routs obs,
      mapExcept (rewriteOneAction cfg agent message) message.actionsOf = .ok rw ∧
      runSeq envExecute s rw = .ok (outs, s') ∧
      mapExcept (rewriteOneOutput cfg agent (message.writeback rw)) outs = .ok routs ∧
      formatObs (message.writeback rw) routs tv = .ok obs ∧
      addMessages obs = .ok r := by
  simp only [_around_execute_actions, bind, Except.bind] at h
  cases hma : mapExcept (rewriteOneAction cfg agent message) message.actionsOf with
  | error e => simp only [hma] at h; exact Except.noConfusion h
  | ok rw =>
    simp only [hma] at h
    cases hrun : runSeq envExecute s rw with
    | error e => simp only [hrun] at h; exact Except.noConfusion h
    | ok q =>
      obtain ⟨outs, s₂⟩ := q
      simp only [hrun] at h
      cases hmo : mapExcept (rewriteOneOutput cfg agent (message.writeback rw)) outs with
      | error e => simp only [hmo] at h; exact Except.noConfusion h
      | ok routs =>
        simp only [hmo] at h
        cases hfo : formatObs (message.writeback rw) routs tv with
        | error e => simp only [hfo] at h; exact Except.noConfusion h
        | ok obs =>
          simp only [hfo] at h
          cases ham : addMessages obs with
          | error e => simp only [ham] at h; exact Except.noConfusion h
          | ok r₀ =>
            simp only [ham, pure, Except.pure, Except.ok.injEq, Prod.mk.injEq] at h
            obtain ⟨h1, h2⟩ := h
            subst h1; subst h2
            exact ⟨rw, outs, routs, obs, rfl, hrun, hmo, hfo, ham⟩

end BenchmarkAspect

namespace BenchmarkAspect

theorem around_error_of_exec {σ τ O R A : Type}
    (envExecute : σ → Dict → Except PyErr (Dict × σ)) (tv : τ)
    (formatObs : Message → List Dict → τ → Except PyErr (List O))
    (addMessages : List O → Except PyErr R)
    (cfg : AspectCfg A) (agent : A) (s : σ) (message : Message)
    (rw : List Dict) (e : PyErr)
    (hma : mapExcept (rewriteOneAction cfg agent message) message.actionsOf = .ok rw)
    (hrun : runSeq envExecute s rw = .error e) :
    _around_execute_actions envExecute tv formatObs addMessages cfg agent
      s message = .error e := by
  simp only [_around_execute_actions, bind, Except.bind, hma, hrun]

theorem around_error_of_format {σ τ O R A : Type}
    (envExecute : σ → Dict → Except PyErr (Dict × σ)) (tv : τ)
    (formatObs : Message → List Dict → τ → Except PyErr (List O))
    (addMessages : List O → Except PyErr R)
    (cfg : AspectCfg A) (agent : A) (s : σ) (message : Message)
    (rw outs routs : List Dict) (s₂ : σ) (e : PyErr)
    (hma : mapExcept (rewriteOneAction cfg agent message) message.actionsOf = .ok rw)
    (hrun : runSeq envExecute s rw = .ok (outs, s₂))
    (hmo : mapExcept (rewriteOneOutput cfg agent (message.writeback rw)) outs = .ok routs)
    (hfo : formatObs (message.writeback rw) routs tv = .error e) :
    _around_execute_actions envExecute tv formatObs addMessages cfg agent
      s message = .error e := by
  simp only [_around_execute_actions, bind, Except.bind, hma, hrun, hmo, hfo]

theorem around_error_of_add {σ τ O R A : Type}
    (envExecute : σ → Dict → Except PyErr (Dict × σ)) (tv : τ)
    (formatObs : Message → List Dict → τ → Except PyErr (List O))
    (addMessages : List O → Except PyErr R)
    (cfg : AspectCfg A) (agent : A) (s : σ) (message : Message)
    (rw outs routs : List Dict) (s₂ : σ) (obs : List O) (e : PyErr)
    (hma : mapExcept (rewriteOneAction cfg agent message) message.actionsOf = .ok rw)
    (hrun : runSeq envExecute s rw = .ok (outs, s₂))
    (hmo : mapExcept (rewriteOneOutput cfg agent (message.writeback rw)) outs = .ok routs)
    (hfo : formatObs (message.writeback rw) routs tv = .ok obs)
    (ham : addMessages obs = .error e) :
    _around_execute_actions envExecute tv formatObs addMessages cfg agent
      s message = .error e := by
  simp only [_around_execute_actions, bind, Except.bind, hma, hrun, hmo, hfo, ham]

end BenchmarkAspect

namespace BenchmarkEnvAspect

theorem envAround_error_of_exec {σ : Type}
    (origExecute : σ → Dict → Except PyErr (PyVal × σ))
    (cmd_rules out_rules : List Rule) (s : σ) (action : PyVal)
    (cmd : String) (e : PyErr)
    (hc : _apply_rules ((entryBase action).command.getD "") cmd_rules = .ok cmd)
    (ho : origExecute s { entryBase action with command := some cmd } = .error e) :
    _around_execute origExecute cmd_rules out_rules s action = .error e := by
  simp only [_around_execute, bind, Except.bind, hc, ho]

end BenchmarkEnvAspect

open BenchmarkAspect in
/-- Running `_around_execute_actions` with a logging environment, a
recording formatter and a pass-through message appender determines every
stage: the log is exactly the rewritten action list, execution is the
sequential run over it, and formatting receives the rewritten outputs. -/
theorem around_instrumented_spec {σ A : Type}
    (env : σ → Dict → Except PyErr (Dict × σ))
    (cfg : AspectCfg A) (agent : A) (s : σ) (message : Message)
    (m : Message) (routs : List Dict) (s' : σ) (log : List Dict)
    (h : _around_execute_actions (logWrap env) ()
      (fun m routs _ => Except.ok [(m, routs)]) (fun obs => Except.ok obs)
      cfg agent (s, ([] : List Dict)) message = .ok ([(m, routs)], (s', log))) :
    mapExcept (rewriteOneAction cfg agent message) message.actionsOf = .ok log ∧
    log.length = message.actionsOf.length ∧
    m = message.writeback log ∧
    ∃ outs, runSeq env s log = .ok (outs, s') ∧
      outs.length = log.length ∧
      mapExcept (rewriteOneOutput cfg agent m) outs = .ok routs ∧
      routs.length = outs.length := by
  obtain ⟨rw, outs, routs₀, obs, hma, hrun, hmo, hfo, ham⟩ :=
    around_ok_decomp _ _ _ _ _ _ _ _ _ _ h
  rw [runSeq_logWrap] at hrun
  cases hr0 : runSeq env s rw with
  | error e => rw [hr0] at hrun; exact Except.noConfusion hrun
  | ok q =>
    obtain ⟨outs₀, s₀⟩ := q
    rw [hr0] at hrun
    simp only [Except.map, Except.ok.injEq, Prod.mk.injEq, List.nil_append] at hrun
    obtain ⟨ho, hs, hlog⟩ := hrun
    subst hlog
    simp only [Except.ok.injEq] at hfo ham
    subst hfo
    simp only [List.cons.injEq, Prod.mk.injEq, and_true] at ham
    obtain ⟨hm, hr⟩ := ham
    subst hm; subst hr; subst ho; subst hs
    exact ⟨hma, mapExcept_ok_length _ _ _ hma, rfl, outs₀, hr0,
      runSeq_ok_length _ _ _ _ _ hr0, hmo, mapExcept_ok_length _ _ _ hmo⟩

namespace BenchmarkAspect

theorem rewriteOneAction_install {A : Type} (r0 : Rule) (rs : List Rule)
    (outr : Option (List Rule)) (g : Dict → Meta A → Dict)
    (tout : Option (Dict → Meta A → Dict)) (agent : A) (msg : Message) (ac : Dict) :
    rewriteOneAction (install_benchmark_bash_io_aspect A (some (r0 :: rs)) outr (some g) tout)
      agent msg ac =
    (_apply_rules (ac.command.getD "") (r0 :: rs)).map
      fun cmd => g { ac with command := some cmd } ⟨agent, msg⟩ := by
  simp only [rewriteOneAction, install_benchmark_bash_io_aspect, _build_action_transform]
  cases har : _apply_rules (ac.command.getD "") (r0 :: rs) <;>
    simp [har, bind, Except.bind, Except.map, pure, Except.pure]

theorem rewriteOneOutput_install {A : Type} (inr : Option (List Rule))
    (or0 : Rule) (ors : List Rule) (tact : Option (Dict → Meta A → Dict))
    (g' : Dict → Meta A → Dict) (agent : A) (msg : Message) (o : Dict) :
    rewriteOneOutput (install_benchmark_bash_io_aspect A inr (some (or0 :: ors)) tact (some g'))
      agent msg o =
    (_apply_rules (o.output.getD "") (or0 :: ors)).map
      fun t => g' { o with output := some t } ⟨agent, msg⟩ := by
  simp only [rewriteOneOutput, install_benchmark_bash_io_aspect, _build_output_transform]
  cases har : _apply_rules (o.output.getD "") (or0 :: ors) <;>
    simp [har, bind, Except.bind, Except.map, pure, Except.pure]

end BenchmarkAspect

/-! ## Claims -/


open BenchmarkAspect in
/-- C1: for every batch of `n` actions in the intercepted message's
`extra.actions` list, `_around_execute_actions` invokes the environment's
`execute` capability exactly `n` times, sequentially and in submission
order — the invocation log of an instrumented environment is precisely
the rewritten action list, whose order is the submission order — and the
execution outputs are rewritten and handed to the formatting capability
in that same order. -/
theorem c1_action_layer_ordering {σ A : Type}
    (env : σ → Dict → Except PyErr (Dict × σ))
    (cfg : AspectCfg A) (agent : A) (s : σ) (message : Message)
    (m : Message) (routs : List Dict) (s' : σ) (log : List Dict)
    (h : _around_execute_actions (logWrap env) ()
      (fun m routs _ => Except.ok [(m, routs)]) (fun obs => Except.ok obs)
      cfg agent (s, ([] : List Dict)) message = .ok ([(m, routs)], (s', log))) :
    mapExcept (rewriteOneAction cfg agent message) message.actionsOf = .ok log ∧
    log.length = message.actionsOf.length ∧
    m = message.writeback log ∧
    ∃ outs, runSeq env s log = .ok (outs, s') ∧
      outs.length = log.length ∧
      mapExcept (rewriteOneOutput cfg agent m) outs = .ok routs ∧
      routs.length = outs.length :=
  around_instrumented_spec env cfg agent s message m routs s' log h

open BenchmarkAspect in
/-- Witness for C1 at a concrete three-action message, a counting echo
environment and an empty configuration. -/
theorem c1_action_layer_ordering_witness :
    mapExcept (rewriteOneAction cfgNone () msg3) msg3.actionsOf =
      .ok [⟨some "x", none, []⟩, ⟨some "y", none, []⟩, ⟨some "z", none, []⟩] ∧
    [⟨some "x", none, []⟩, ⟨some "y", none, []⟩,
      (⟨some "z", none, []⟩ : Dict)].length = msg3.actionsOf.length ∧
    msg3.writeback [⟨some "x", none, []⟩, ⟨some "y", none, []⟩, ⟨some "z", none, []⟩] =
      msg3.writeback [⟨some "x", none, []⟩, ⟨some "y", none, []⟩, ⟨some "z", none, []⟩] ∧
    ∃ outs, runSeq echoEnv 0
        [⟨some "x", none, []⟩, ⟨some "y", none, []⟩, ⟨some "z", none, []⟩] = .ok (outs, 3) ∧
      outs.length = [⟨some "x", none, []⟩, ⟨some "y", none, []⟩,
        (⟨some "z", none, []⟩ : Dict)].length ∧
      mapExcept (rewriteOneOutput cfgNone ()
        (msg3.writeback [⟨some "x", none, []⟩, ⟨some "y", none, []⟩, ⟨some "z", none, []⟩])) outs =
        .ok [⟨some "x", some "x", []⟩, ⟨some "y", some "y", []⟩, ⟨some "z", some "z", []⟩] ∧
      [⟨some "x", some "x", []⟩, ⟨some "y", some "y", []⟩,
        (⟨some "z", some "z", []⟩ : Dict)].length = outs.length := by
  have h := c1_action_layer_ordering echoEnv cfgNone () 0 msg3
    (msg3.writeback [⟨some "x", none, []⟩, ⟨some "y", none, []⟩, ⟨some "z", none, []⟩])
    [⟨some "x", some "x", []⟩, ⟨some "y", some "y", []⟩, ⟨some "z", some "z", []⟩] 3
    [⟨some "x", none, []⟩, ⟨some "y", none, []⟩, ⟨some "z", none, []⟩] (by rfl)
  exact ⟨h.1, h.2.1, rfl, h.2.2.2⟩

open BenchmarkAspect in
/-- C4: when both a rule list and a custom callback are configured at
the action layer, for every action (and symmetrically every output) the
rule-based transform `_apply_rules` runs first, the callback receives the
rule-transformed payload together with the `{"agent": ..., "message":
...}` metadata, and the callback's return value is the final payload
executed (respectively handed to formatting): the instrumented
interceptor's execution log and formatted outputs are exactly the
rule-then-callback composites of the submitted actions and of the
execution outputs. -/
theorem c4_rules_before_callback {σ A : Type}
    (env : σ → Dict → Except PyErr (Dict × σ))
    (r0 : Rule) (rs : List Rule) (or0 : Rule) (ors : List Rule)
    (g g' : Dict → Meta A → Dict) (agent : A) (s : σ) (message : Message)
    (m : Message) (routs : List Dict) (s' : σ) (log : List Dict)
    (h : _around_execute_actions (logWrap env) ()
      (fun m routs _ => Except.ok [(m, routs)]) (fun obs => Except.ok obs)
      (install_benchmark_bash_io_aspect A (some (r0 :: rs)) (some (or0 :: ors))
        (some g) (some g'))
      agent (s, ([] : List Dict)) message = .ok ([(m, routs)], (s', log))) :
    mapExcept (fun ac => (_apply_rules (ac.command.getD "") (r0 :: rs)).map
        fun cmd => g { ac with command := some cmd } ⟨agent, message⟩)
      message.actionsOf = .ok log ∧
    ∃ outs, runSeq env s log = .ok (outs, s') ∧
      mapExcept (fun o => (_apply_rules (o.output.getD "") (or0 :: ors)).map
          fun t => g' { o with output := some t } ⟨agent, message.writeback log⟩)
        outs = .ok routs := by
  obtain ⟨hma, _, hm, outs, hrun, _, hmo, _⟩ :=
    around_instrumented_spec env _ agent s message m routs s' log h
  subst hm
  refine ⟨?_, outs, hrun, ?_⟩
  · rw [← mapExcept_congr _ _ (rewriteOneAction_install r0 rs _ g _ agent message)]
    exact hma
  · rw [← mapExcept_congr _ _
      (rewriteOneOutput_install _ or0 ors _ g' agent (message.writeback log))]
    exact hmo

open BenchmarkAspect in
/-- Witness for C4: rules `x→X` (actions, regex) and `X→Y` (outputs,
literal) composed with concrete callbacks on a three-action message. -/
theorem c4_rules_before_callback_witness :
    mapExcept (fun ac => (_apply_rules (ac.command.getD "")
          [⟨some "x", some "X", none⟩]).map
        fun cmd => cbAct { ac with command := some cmd } ⟨(), msg3⟩)
      msg3.actionsOf =
      .ok [⟨some "Xg", none, []⟩, ⟨some "yg", none, []⟩, ⟨some "zg", none, []⟩] ∧
    ∃ outs, runSeq echoEnv 0
        [⟨some "Xg", none, []⟩, ⟨some "yg", none, []⟩, ⟨some "zg", none, []⟩] =
        .ok (outs, 3) ∧
      mapExcept (fun o => (_apply_rules (o.output.getD "")
            [⟨some "X", some "Y", some false⟩]).map
          fun t => cbOut { o with output := some t }
            ⟨(), msg3.writeback
              [⟨some "Xg", none, []⟩, ⟨some "yg", none, []⟩, ⟨some "zg", none, []⟩]⟩)
        outs =
        .ok [⟨some "Xg", some "Ygh", []⟩, ⟨some "yg", some "ygh", []⟩,
          ⟨some "zg", some "zgh", []⟩] :=
  c4_rules_before_callback echoEnv ⟨some "x", some "X", none⟩ []
    ⟨some "X", some "Y", some false⟩ [] cbAct cbOut () 0 msg3
    (msg3.writeback [⟨some "Xg", none, []⟩, ⟨some "yg", none, []⟩, ⟨some "zg", none, []⟩])
    [⟨some "Xg", some "Ygh", []⟩, ⟨some "yg", some "ygh", []⟩, ⟨some "zg", some "zgh", []⟩]
    3 [⟨some "Xg", none, []⟩, ⟨some "yg", none, []⟩, ⟨some "zg", none, []⟩] (by rfl)

/-- C5: if the delegated execution, formatting, or state-append logic
raises during an intercepted call, the interceptor propagates that exact
error value to the original caller — no catching, wrapping, translating
or suppressing — at the action layer (first three conjuncts: environment
execution, observation formatting, message appending) and at the
environment layer (last conjunct: the original `execute`). -/
theorem c5_error_transparency :
    (∀ (σ τ O R A : Type) (env : σ → Dict → Except PyErr (Dict × σ)) (tv : τ)
      (fo : Message → List Dict → τ → Except PyErr (List O))
      (am : List O → Except PyErr R) (cfg : BenchmarkAspect.AspectCfg A)
      (agent : A) (s : σ) (message : Message) (rw : List Dict) (e : PyErr),
      BenchmarkAspect.mapExcept (BenchmarkAspect.rewriteOneAction cfg agent message)
        message.actionsOf = .ok rw →
      BenchmarkAspect.runSeq env s rw = .error e →
      BenchmarkAspect._around_execute_actions env tv fo am cfg agent s message =
        .error e) ∧
    (∀ (σ τ O R A : Type) (env : σ → Dict → Except PyErr (Dict × σ)) (tv : τ)
      (fo : Message → List Dict → τ → Except PyErr (List O))
      (am : List O → Except PyErr R) (cfg : BenchmarkAspect.AspectCfg A)
      (agent : A) (s : σ) (message : Message) (rw outs routs : List Dict)
      (s₂ : σ) (e : PyErr),
      BenchmarkAspect.mapExcept (BenchmarkAspect.rewriteOneAction cfg agent message)
        message.actionsOf = .ok rw →
      BenchmarkAspect.runSeq env s rw = .ok (outs, s₂) →
      BenchmarkAspect.mapExcept (BenchmarkAspect.rewriteOneOutput cfg agent
        (message.writeback rw)) outs = .ok routs →
      fo (message.writeback rw) routs tv = .error e →
      BenchmarkAspect._around_execute_actions env tv fo am cfg agent s message =
        .error e) ∧
    (∀ (σ τ O R A : Type) (env : σ → Dict → Except PyErr (Dict × σ)) (tv : τ)
      (fo : Message → List Dict → τ → Except PyErr (List O))
      (am : List O → Except PyErr R) (cfg : BenchmarkAspect.AspectCfg A)
      (agent : A) (s : σ) (message : Message) (rw outs routs : List Dict)
      (s₂ : σ) (obs : List O) (e : PyErr),
      BenchmarkAspect.mapExcept (BenchmarkAspect.rewriteOneAction cfg agent message)
        message.actionsOf = .ok rw →
      BenchmarkAspect.runSeq env s rw = .ok (outs, s₂) →
      BenchmarkAspect.mapExcept (BenchmarkAspect.rewriteOneOutput cfg agent
        (message.writeback rw)) outs = .ok routs →
      fo (message.writeback rw) routs tv = .ok obs →
      am obs = .error e →
      BenchmarkAspect._around_execute_actions env tv fo am cfg agent s message =
        .error e) ∧
    (∀ (σ : Type) (orig : σ → Dict → Except PyErr (PyVal × σ))
      (cr our : List Rule) (s : σ) (action : PyVal) (cmd : String) (e : PyErr),
      BenchmarkEnvAspect._apply_rules
        ((BenchmarkEnvAspect.entryBase action).command.getD "") cr = .ok cmd →
      orig s { BenchmarkEnvAspect.entryBase action with command := some cmd } =
        .error e →
      BenchmarkEnvAspect._around_execute orig cr our s action = .error e) :=
  ⟨fun _ _ _ _ _ env tv fo am cfg agent s message rw e hma hrun =>
      BenchmarkAspect.around_error_of_exec env tv fo am cfg agent s message rw e hma hrun,
    fun _ _ _ _ _ env tv fo am cfg agent s message rw outs routs s₂ e hma hrun hmo hfo =>
      BenchmarkAspect.around_error_of_format env tv fo am cfg agent s message
        rw outs routs s₂ e hma hrun hmo hfo,
    fun _ _ _ _ _ env tv fo am cfg agent s message rw outs routs s₂ obs e
        hma hrun hmo hfo ham =>
      BenchmarkAspect.around_error_of_add env tv fo am cfg agent s message
        rw outs routs s₂ obs e hma hrun hmo hfo ham,
    fun _ orig cr our s action cmd e hc ho =>
      BenchmarkEnvAspect.envAround_error_of_exec orig cr our s action cmd e hc ho⟩

/-- Witness for C5: each conjunct applied at a concrete failing stage —
an environment raising `raised "exec boom"`, a formatter raising
`raised "format boom"`, an appender raising `raised "append boom"`, and
an original env-layer execute raising `raised "env boom"`. -/
theorem c5_error_transparency_witness :
    BenchmarkAspect._around_execute_actions
      (fun (_ : Nat) (_ : Dict) => (.error (.raised "exec boom") : Except PyErr (Dict × Nat)))
      () (fun m routs _ => Except.ok [(m, routs)]) (fun obs => Except.ok obs)
      cfgNone () 0 msg3 = .error (.raised "exec boom") ∧
    BenchmarkAspect._around_execute_actions echoEnv ()
      (fun (_ : Message) (_ : List Dict) (_ : Unit) =>
        (.error (.raised "format boom") : Except PyErr (List Unit)))
      (fun obs => Except.ok obs) cfgNone () 0 msg3 = .error (.raised "format boom") ∧
    BenchmarkAspect._around_execute_actions echoEnv ()
      (fun (_ : Message) (_ : List Dict) (_ : Unit) => (Except.ok ([] : List Unit)))
      (fun _ => (.error (.raised "append boom") : Except PyErr Unit))
      cfgNone () 0 msg3 = .error (.raised "append boom") ∧
    BenchmarkEnvAspect._around_execute
      (fun (_ : Unit) (_ : Dict) => (.error (.raised "env boom") : Except PyErr (PyVal × Unit)))
      [] [] () (.vdict ⟨some "pwd", none, []⟩) = .error (.raised "env boom") := by
  refine ⟨?_, ?_, ?_, ?_⟩
  · exact c5_error_transparency.1 Nat Unit (Message × List Dict)
      (List (Message × List Dict)) Unit
      (fun _ _ => .error (.raised "exec boom")) ()
      (fun m routs _ => Except.ok [(m, routs)]) (fun obs => Except.ok obs)
      cfgNone () 0 msg3
      msg3.actionsOf (.raised "exec boom") (by rfl) (by rfl)
  · exact c5_error_transparency.2.1 Nat Unit Unit (List Unit) Unit echoEnv ()
      (fun _ _ _ => .error (.raised "format boom")) (fun obs => Except.ok obs)
      cfgNone () 0 msg3 msg3.actionsOf
      [⟨some "x", some "x", []⟩, ⟨some "y", some "y", []⟩, ⟨some "z", some "z", []⟩]
      [⟨some "x", some "x", []⟩, ⟨some "y", some "y", []⟩, ⟨some "z", some "z", []⟩]
      3 (.raised "format boom") (by rfl) (by rfl) (by rfl) (by rfl)
  · exact c5_error_transparency.2.2.1 Nat Unit Unit Unit Unit echoEnv ()
      (fun _ _ _ => Except.ok []) (fun _ => .error (.raised "append boom"))
      cfgNone () 0 msg3 msg3.actionsOf
      [⟨some "x", some "x", []⟩, ⟨some "y", some "y", []⟩, ⟨some "z", some "z", []⟩]
      [⟨some "x", some "x", []⟩, ⟨some "y", some "y", []⟩, ⟨some "z", some "z", []⟩]
      3 [] (.raised "append boom") (by rfl) (by rfl) (by rfl) (by rfl) (by rfl)
  · exact c5_error_transparency.2.2.2 Unit
      (fun _ _ => .error (.raised "env boom")) [] [] ()
      (.vdict ⟨some "pwd", none, []⟩) "pwd" (.raised "env boom") (by rfl) (by rfl)

open BenchmarkEnvAspect in
/-- C6: the environment-layer interceptor never raises on shape
mismatches at its boundary.  First conjunct: a bare string action `t` is
wrapped into `{"command": t}` and the delegate is invoked with the
command rules applied to `t` (observed through a recording delegate).
Second conjunct: a delegated result that is not a dict containing an
`output` field is returned unchanged.  Third conjunct: a dict result
with an `output` field is copied and only that field rewritten. -/
theorem c6_env_layer_shape_tolerance :
    (∀ (cr our : List Rule) (t cmd : String) (res : PyVal),
      _apply_rules t cr = .ok cmd →
      hasOutputField res = false →
      _around_execute (fun (_ : Option Dict) a => .ok (res, some a)) cr our
        none (.vstr t) = .ok (res, some ⟨some cmd, none, []⟩)) ∧
    (∀ (σ : Type) (orig : σ → Dict → Except PyErr (PyVal × σ)) (cr our : List Rule)
      (s : σ) (action : PyVal) (cmd : String) (res : PyVal) (s' : σ),
      _apply_rules ((entryBase action).command.getD "") cr = .ok cmd →
      orig s { entryBase action with command := some cmd } = .ok (res, s') →
      hasOutputField res = false →
      _around_execute orig cr our s action = .ok (res, s')) ∧
    (∀ (σ : Type) (orig : σ → Dict → Except PyErr (PyVal × σ)) (cr our : List Rule)
      (s : σ) (action : PyVal) (cmd : String) (rd : Dict) (o0 out : String) (s' : σ),
      _apply_rules ((entryBase action).command.getD "") cr = .ok cmd →
      orig s { entryBase action with command := some cmd } = .ok (.vdict rd, s') →
      rd.output = some o0 →
      _apply_rules o0 our = .ok out →
      _around_execute orig cr our s action =
        .ok (.vdict { rd with output := some out }, s')) := by
  have hpass : ∀ (σ : Type) (orig : σ → Dict → Except PyErr (PyVal × σ))
      (cr our : List Rule) (s : σ) (action : PyVal) (cmd : String)
      (res : PyVal) (s' : σ),
      _apply_rules ((entryBase action).command.getD "") cr = .ok cmd →
      orig s { entryBase action with command := some cmd } = .ok (res, s') →
      hasOutputField res = false →
      _around_execute orig cr our s action = .ok (res, s') := by
    intro σ orig cr our s action cmd res s' hc ho hres
    cases res with
    | vdict rd =>
      simp only [hasOutputField] at hres
      simp [_around_execute, bind, Except.bind, hc, ho, hres, pure, Except.pure]
    | vstr t => simp [_around_execute, bind, Except.bind, hc, ho, pure, Except.pure]
    | vother t => simp [_around_execute, bind, Except.bind, hc, ho, pure, Except.pure]
  refine ⟨?_, hpass, ?_⟩
  · intro cr our t cmd res hc hres
    exact hpass (Option Dict) (fun _ a => .ok (res, some a)) cr our none
      (.vstr t) cmd res (some ⟨some cmd, none, []⟩) hc rfl hres
  · intro σ orig cr our s action cmd rd o0 out s' hc ho hrd hout
    have hro : rd.output.getD "" = o0 := by rw [hrd]; rfl
    simp [_around_execute, bind, Except.bind, hc, ho, hrd, hro, hout, pure, Except.pure]

open BenchmarkEnvAspect in
/-- Witness for C6: a bare string action under a rewriting rule with a
non-dict result; a dict result without `output` passed through; and a
dict result whose `output` is rewritten by a redaction rule. -/
theorem c6_env_layer_shape_tolerance_witness :
    _around_execute (fun (_ : Option Dict) a => .ok (.vother "17", some a))
      [⟨some "p", some "q", none⟩] [] none (.vstr "pp") =
      .ok (.vother "17", some ⟨some "qq", none, []⟩) ∧
    _around_execute (fun (_ : Unit) _ => .ok (.vdict ⟨some "c", none, [("rc", "0")]⟩, ()))
      [] [] () (.vdict ⟨some "ls", none, []⟩) =
      .ok (.vdict ⟨some "c", none, [("rc", "0")]⟩, ()) ∧
    _around_execute
      (fun (_ : Unit) _ => .ok (.vdict ⟨none, some "sekret", [("rc", "0")]⟩, ()))
      [] [⟨some "sekret", some "hidden", none⟩] () (.vdict ⟨some "cat", none, []⟩) =
      .ok (.vdict ⟨none, some "hidden", [("rc", "0")]⟩, ()) := by
  refine ⟨?_, ?_, ?_⟩
  · exact c6_env_layer_shape_tolerance.1 [⟨some "p", some "q", none⟩] [] "pp" "qq"
      (.vother "17") (by rfl) (by rfl)
  · exact c6_env_layer_shape_tolerance.2.1 Unit
      (fun _ _ => .ok (.vdict ⟨some "c", none, [("rc", "0")]⟩, ())) [] [] ()
      (.vdict ⟨some "ls", none, []⟩) "ls" (.vdict ⟨some "c", none, [("rc", "0")]⟩) ()
      (by rfl) (by rfl) (by rfl)
  · exact c6_env_layer_shape_tolerance.2.2 Unit
      (fun _ _ => .ok (.vdict ⟨none, some "sekret", [("rc", "0")]⟩, ())) []
      [⟨some "sekret", some "hidden", none⟩] () (.vdict ⟨some "cat", none, []⟩) "cat"
      ⟨none, some "sekret", [("rc", "0")]⟩ "sekret" "hidden" ()
      (by rfl) (by rfl) (by rfl) (by rfl)

open BenchmarkAspect in
/-- C7: applying an empty rule list returns the text unchanged (identity
law, at both layers), and the transform composers `_build_action_transform`
and `_build_output_transform` return `none` — no transform, payload passes
through — for an absent (`None`) or empty rule list. -/
theorem c7_empty_rules_identity :
    (∀ t : String, BenchmarkAspect._apply_rules t [] = .ok t) ∧
    (∀ t : String, BenchmarkEnvAspect._apply_rules t [] = .ok t) ∧
    (∀ M : Type, _build_action_transform M none = none) ∧
    (∀ M : Type, _build_action_transform M (some []) = none) ∧
    (∀ M : Type, _build_output_transform M none = none) ∧
    (∀ M : Type, _build_output_transform M (some []) = none) :=
  ⟨fun _ => rfl, fun _ => rfl, fun _ => rfl, fun _ => rfl, fun _ => rfl, fun _ => rfl⟩

open BenchmarkAspect in
/-- C8: rule application is sequential composition — each rule is applied
to the previous rule's output, in list order, for every text and every
rule list (cons and append decompositions), and in particular
`[a→b, b→c]` on `"a"` yields `"c"`, not `"b"`. -/
theorem c8_sequential_composition :
    (∀ (t : String) (r : Rule) (rs : List Rule),
      _apply_rules t (r :: rs) = (applyRule t r).bind fun t' => _apply_rules t' rs) ∧
    (∀ (rs1 rs2 : List Rule) (t : String),
      _apply_rules t (rs1 ++ rs2) = (_apply_rules t rs1).bind fun t' => _apply_rules t' rs2) ∧
    _apply_rules "a" [⟨some "a", some "b", none⟩, ⟨some "b", some "c", none⟩] = .ok "c" ∧
    _apply_rules "a" [⟨some "a", some "b", none⟩, ⟨some "b", some "c", none⟩] ≠ .ok "b" := by
  have hcons : ∀ (t : String) (r : Rule) (rs : List Rule),
      _apply_rules t (r :: rs) = (applyRule t r).bind fun t' => _apply_rules t' rs := by
    intro t r rs
    cases h : applyRule t r <;> simp [_apply_rules, h, bind, Except.bind]
  refine ⟨hcons, ?_, rfl, ?_⟩
  · intro rs1
    induction rs1 with
    | nil => intro rs2 t; rfl
    | cons r rs ih =>
      intro rs2 t
      rw [List.cons_append, hcons, hcons]
      cases h : applyRule t r with
      | error e => rfl
      | ok t' => simp [Except.bind, ih]
  · intro h
    injection h with h'
    exact absurd h' (by decide)

open BenchmarkAspect in
/-- C9: with `regex: false` the rule `{pattern: ".", replace: "X"}`
performs literal all-occurrences replacement (`"a.b.c"` becomes
`"aXbXc"`), while with `regex: true` — explicitly or by default — it is a
global regular-expression substitution in which `.` matches any single
character (`"a.b.c"` becomes `"XXXXX"`). -/
theorem c9_literal_vs_regex :
    _apply_rules "a.b.c" [⟨some ".", some "X", some false⟩] = .ok "aXbXc" ∧
    _apply_rules "a.b.c" [⟨some ".", some "X", some true⟩] = .ok "XXXXX" ∧
    _apply_rules "a.b.c" [⟨some ".", some "X", none⟩] = .ok "XXXXX" :=
  ⟨rfl, rfl, rfl⟩

open BenchmarkAspect in
/-- Counterexample to C10: the claim's "for every text `T` and
replacement string `R`, the result is `R` inserted before every character
of `T`" fails for replacements containing a backslash, because Python
template-processes `re.sub` replacements.  With the empty (absent)
pattern on `"ab"`, the replacement written `\n` (backslash, `n`) inserts
a single newline character, not the two characters of `R` (first and
third conjuncts; the second spells out what the claim would predict),
and the replacement `\1` does not insert anything: it raises `re.error`
(invalid group reference — the pattern has no groups), as in Python
(fourth conjunct). -/
theorem c10_counterexample :
    _apply_rules "ab" [⟨none, some "\\n", none⟩] = .ok "\na\nb\n" ∧
    insertEverywhere "\\n" "ab" = "\\na\\nb\\n" ∧
    _apply_rules "ab" [⟨none, some "\\n", none⟩] ≠
      .ok (insertEverywhere "\\n" "ab") ∧
    _apply_rules "ab" [⟨none, some "\\1", none⟩] = .error (.reError "\\1") := by
  refine ⟨rfl, rfl, ?_, rfl⟩
  intro h
  rw [show _apply_rules "ab" [⟨none, some "\\n", none⟩] = .ok "\na\nb\n" from rfl,
    show insertEverywhere "\\n" "ab" = "\\na\\nb\\n" from rfl] at h
  injection h with h'
  exact absurd h' (by decide)

open BenchmarkAspect in
/-- C10 as amended: a rule whose `pattern` key is absent (or the empty
string) in the default regex mode substitutes the empty pattern, which
matches at every position: for every text `T` and every replacement `R`
containing no backslash (so that Python's replacement-template expansion
leaves it unchanged), the result is `R` inserted before every character
of `T` and appended after the last (so `{replace: "X"}` turns `"ab"`
into `"XaXbX"`); both interceptor layers share this `_apply_rules`
behaviour, and a rule with both keys absent is a no-op. -/
theorem c10_empty_pattern :
    (∀ T R : String, (∀ c ∈ R.toList, c ≠ '\\') →
      applyRule T ⟨none, some R, none⟩ = .ok (insertEverywhere R T)) ∧
    (∀ T R : String, (∀ c ∈ R.toList, c ≠ '\\') →
      applyRule T ⟨some "", some R, some true⟩ = .ok (insertEverywhere R T)) ∧
    (∀ (t : String) (rules : List Rule),
      BenchmarkAspect._apply_rules t rules = BenchmarkEnvAspect._apply_rules t rules) ∧
    (∀ T : String, applyRule T ⟨none, none, none⟩ = .ok T) ∧
    _apply_rules "ab" [⟨none, some "X", none⟩] = .ok "XaXbX" := by
  have key : ∀ T R : String, (∀ c ∈ R.toList, c ≠ '\\') →
      Re.sub "" R T = .ok (insertEverywhere R T) := by
    intro T R hR
    have ht := Re.parseTemplate_no_backslash R.toList hR
    show (match Re.parseTemplate R.toList with
      | none => (Except.error (.reError R) : Except PyErr String)
      | some r => Except.ok ⟨Re.subAtoms [] r T.toList⟩) = _
    rw [ht]
    have h := Re.subAux_nil_atoms R.toList T.toList (T.toList.length + 1)
      (Nat.lt_succ_self _)
    exact congrArg (fun l => Except.ok (⟨l⟩ : String)) h
  refine ⟨fun T R hR => key T R hR, fun T R hR => key T R hR, ?_, ?_, rfl⟩
  · intro t rules
    induction rules generalizing t with
    | nil => rfl
    | cons r rs ih =>
      show (do BenchmarkAspect._apply_rules (← applyRule t r) rs) =
        (do BenchmarkEnvAspect._apply_rules (← applyRule t r) rs)
      cases h : applyRule t r <;> simp [h, bind, Except.bind, ih]
  · intro T
    have h := key T "" fun c hc => absurd hc (List.not_mem_nil c)
    rw [show applyRule T ⟨none, none, none⟩ = Re.sub "" "" T from rfl, h]
    have h2 : insertEverywhere "" T = T := by
      cases T with
      | mk data =>
        simp only [insertEverywhere]
        congr 1
        simp
    rw [h2]

open BenchmarkAspect in
/-- Witness for C10 (amended) at the backslash-free replacement `"X"` on
the text `"ab"`. -/
theorem c10_empty_pattern_witness :
    applyRule "ab" ⟨none, some "X", none⟩ = .ok (insertEverywhere "X" "ab") ∧
    applyRule "ab" ⟨some "", some "X", some true⟩ = .ok (insertEverywhere "X" "ab") :=
  ⟨c10_empty_pattern.1 "ab" "X" (by decide), c10_empty_pattern.2.1 "ab" "X" (by decide)⟩

open BenchmarkAspect in
/-- Counterexample to C2: installing the action-layer interceptor with a
rule list containing the invalid pattern `"("` does not raise inside the
install call.  `install_benchmark_bash_io_aspect` — which, like the
source, only tests the rule lists for emptiness and never compiles a
pattern — completes normally and returns a configuration; the
`re.error` configuration error surfaces only when the built transform
first runs on an action (third conjunct), i.e. at first rule
application during an intercepted invocation. -/
theorem c2_counterexample :
    Re.parsePattern "(".toList = none ∧
    _apply_rules "pwd" [badPatternRule] = .error (.reError "(") ∧
    ∃ f, (install_benchmark_bash_io_aspect Unit (some [badPatternRule]) none
        none none).rule_action_transform = some f ∧
      f ⟨some "pwd", none, []⟩ ⟨(), ⟨none, []⟩⟩ = .error (.reError "(") :=
  ⟨rfl, rfl, _, rfl, rfl⟩

open BenchmarkAspect in
/-- C2 as amended: an interceptor installed with a rule list containing
an invalid regular-expression pattern is returned successfully by the
install call — no validation happens at installation time — and the
configuration error surfaces as a raised `re.error` at the first (and
every) application of the rules, for every text and every action. -/
theorem c2_amended_error_at_first_use :
    ∀ (A : Type) (agent : A) (msg : Message) (d : Dict) (t : String)
      (outr : Option (List Rule)) (ta tout : Option (Dict → Meta A → Dict)),
      _apply_rules t [badPatternRule] = .error (.reError "(") ∧
      ∃ f, (install_benchmark_bash_io_aspect A (some [badPatternRule]) outr
          ta tout).rule_action_transform = some f ∧
        f d ⟨agent, msg⟩ = .error (.reError "(") :=
  fun _ _ _ _ _ _ _ _ => ⟨rfl, _, rfl, rfl⟩

/-- Counterexample to C3: at the environment layer the entry copy is
`dict(action)` — a shallow copy, not a deep copy.  On the concrete caller
heap `callerStore`, the interceptor's entry step copies the caller's
action `{"command": "pwd", "meta": <ref 0>}` into a fresh dict whose
`"meta"` entry is the same reference `0` as the caller's (second
conjunct), so mutating that nested field through the rewritten copy
changes the caller's pre-rewrite object: the nested `"x"` entry observed
through the caller's own action flips from `"v"` to `"MUT"` (last two
conjuncts). -/
theorem c3_counterexample :
    Heap.envEntryHeap Heap.callerStore (.vref 1) "ls" =
      ([.hdict [("x", .vstr "v")],
        .hdict [("command", .vstr "pwd"), ("meta", .vref 0)],
        .hdict [("command", .vstr "ls"), ("meta", .vref 0)]], 2) ∧
    Heap.getField (Heap.envEntryHeap Heap.callerStore (.vref 1) "ls").1 2 "meta" =
      some (.vref 0) ∧
    Heap.getField Heap.callerStore 1 "meta" = some (.vref 0) ∧
    Heap.getField Heap.callerStore 0 "x" = some (.vstr "v") ∧
    Heap.getField
      (Heap.setField (Heap.envEntryHeap Heap.callerStore (.vref 1) "ls").1 0 "x"
        (.vstr "MUT")) 0 "x" = some (.vstr "MUT") := by
  refine ⟨rfl, rfl, rfl, rfl, rfl⟩

/-- C3 as amended: the caller's pre-rewrite objects are never mutated by
the interceptors' own copy-and-assign steps, but only the action layer
deep-copies.  (1) `copy.deepcopy` (the action layer's entry copy of the
message) preserves every pre-existing object and yields a copy lying
entirely in the fresh region — it shares no mutable object with the
caller, so any mutation of the copy, nested fields included, leaves the
caller's data intact.  (2) Field assignment at a freshly allocated
reference leaves every pre-existing object unchanged.  (3) The
environment layer's `dict(...)` copy allocates a fresh top-level object
and preserves every pre-existing object — but shares nested values, as
the counterexample exhibits.  (4)/(5) The environment layer's complete
entry (copy + command assignment) and exit (copy + output assignment)
steps leave every pre-existing object — in particular the caller's
action and result, nested fields included — unchanged. -/
theorem c3_amended_copy_discipline :
    (∀ (fuel : Nat) (s : Heap.Store) (v v' : Heap.HVal) (s' : Heap.Store),
      Heap.deepcopyVal fuel s v = some (v', s') →
      Heap.StorePres s s' ∧ Heap.refGE s.length v' = true ∧
        Heap.ExtFresh s.length s') ∧
    (∀ (s : Heap.Store) (r : Heap.Ref) (k : String) (v : Heap.HVal) (i : Nat),
      i < s.length → s.length ≤ r → (Heap.setField s r k v)[i]? = s[i]?) ∧
    (∀ (s : Heap.Store) (r : Heap.Ref) (s' : Heap.Store) (r' : Heap.Ref),
      Heap.dictCopy s r = some (s', r') → Heap.StorePres s s' ∧ s.length ≤ r') ∧
    (∀ (s : Heap.Store) (action : Heap.HVal) (cmd : String) (i : Nat),
      i < s.length → (Heap.envEntryHeap s action cmd).1[i]? = s[i]?) ∧
    (∀ (s : Heap.Store) (res : Heap.HVal) (out : String) (i : Nat),
      i < s.length → (Heap.envResultHeap s res out).1[i]? = s[i]?) := by
  refine ⟨fun fuel s v v' s' h => (Heap.deepcopy_spec fuel).1 s v v' s' h,
    fun s r k v i hi hr => Heap.getElem?_setField_ne s r k v i (by omega),
    ?_, ?_, ?_⟩
  · intro s r s' r' h
    cases hr : s[r]? with
    | none => simp [Heap.dictCopy, hr] at h
    | some o =>
      cases o with
      | hdict fields =>
        simp only [Heap.dictCopy, hr, Option.some.injEq, Prod.mk.injEq] at h
        obtain ⟨h1, h2⟩ := h
        subst h1; subst h2
        exact ⟨Heap.storePres_append s _, Nat.le_refl _⟩
      | hlist items => simp [Heap.dictCopy, hr] at h
  · intro s action cmd i hi
    cases action with
    | vref r =>
      cases hr : s[r]? with
      | none =>
        simp only [Heap.envEntryHeap, hr]
        exact List.getElem?_append_left hi
      | some o =>
        cases o with
        | hdict fields =>
          simp only [Heap.envEntryHeap, hr]
          rw [Heap.getElem?_setField_ne _ _ _ _ i (by omega)]
          exact List.getElem?_append_left hi
        | hlist items =>
          simp only [Heap.envEntryHeap, hr]
          exact List.getElem?_append_left hi
    | vstr t =>
      simp only [Heap.envEntryHeap]
      exact List.getElem?_append_left hi
  · intro s res out i hi
    cases res with
    | vref r =>
      cases hr : s[r]? with
      | none => simp [Heap.envResultHeap, hr]
      | some o =>
        cases o with
        | hdict fields =>
          by_cases hout : (fields.lookup "output").isSome
          · simp only [Heap.envResultHeap, hr, hout, if_true]
            rw [Heap.getElem?_setField_ne _ _ _ _ i (by omega)]
            exact List.getElem?_append_left hi
          · simp [Heap.envResultHeap, hr, hout]
        | hlist items => simp [Heap.envResultHeap, hr]
    | vstr t => simp [Heap.envResultHeap]

/-- Witness for C3 (amended) on the concrete caller heap: a deep copy of
the caller's action (sharing nothing, caller objects preserved), a field
assignment at a fresh reference, a `dict(...)` copy, and the two
environment-layer pipeline steps, all leaving the caller's objects at
indices 0 and 1 untouched. -/
theorem c3_amended_copy_discipline_witness :
    (Heap.StorePres Heap.callerStore
      [.hdict [("x", .vstr "v")],
       .hdict [("command", .vstr "pwd"), ("meta", .vref 0)],
       .hdict [("x", .vstr "v")],
       .hdict [("command", .vstr "pwd"), ("meta", .vref 2)]] ∧
     Heap.refGE Heap.callerStore.length (.vref 3) = true ∧
     Heap.ExtFresh Heap.callerStore.length
      [.hdict [("x", .vstr "v")],
       .hdict [("command", .vstr "pwd"), ("meta", .vref 0)],
       .hdict [("x", .vstr "v")],
       .hdict [("command", .vstr "pwd"), ("meta", .vref 2)]]) ∧
    (Heap.setField Heap.callerStore 2 "command" (.vstr "q"))[0]? =
      Heap.callerStore[0]? ∧
    (Heap.StorePres Heap.callerStore
      (Heap.callerStore ++ [.hdict [("command", .vstr "pwd"), ("meta", .vref 0)]]) ∧
     Heap.callerStore.length ≤ 2) ∧
    (Heap.envEntryHeap Heap.callerStore (.vref 1) "ls").1[1]? =
      Heap.callerStore[1]? ∧
    (Heap.envResultHeap Heap.callerStore (.vref 1) "out").1[0]? =
      Heap.callerStore[0]? :=
  ⟨c3_amended_copy_discipline.1 6 Heap.callerStore (.vref 1) (.vref 3) _ (by rfl),
   c3_amended_copy_discipline.2.1 Heap.callerStore 2 "command" (.vstr "q") 0
     (by decide) (by decide),
   c3_amended_copy_discipline.2.2.1 Heap.callerStore 1
     (Heap.callerStore ++ [.hdict [("command", .vstr "pwd"), ("meta", .vref 0)]]) 2
     (by rfl),
   c3_amended_copy_discipline.2.2.2.1 Heap.callerStore (.vref 1) "ls" 1 (by decide),
   c3_amended_copy_discipline.2.2.2.2 Heap.callerStore (.vref 1) "out" 0 (by decide)⟩
